import Mathlib

/-! Verification of `transfer_learning_PitML_metrics.py`.

The script fine-tunes a pretrained image classifier and reports
accuracy/ROC metrics.  We shallowly embed the control flow of
`train_model` and `visualize_model`: the deep-learning framework's
forward pass, loss criterion, optimizer step and scheduler step are
abstract operations bundled in `Ops`, while the loop structure, the
accumulation of statistics, the best-snapshot bookkeeping and the
early-return logic are translated line by line from the source.
Machine floats are modelled as rationals.
-/

namespace PitML

/-- The two phases of an epoch, iterated in the order `['train', 'val']`. -/
inductive Phase
  | train
  | val
deriving DecidableEq, Repr

/-- Observable events of the training loop, used to state ordering
properties: one `schedAdvance` per `scheduler.step()`, one `gradStep`
per `loss.backward(); optimizer.step()`, one `batchDone ph` per
iteration of the dataloader loop. -/
inductive Event
  | schedAdvance
  | gradStep
  | batchDone (ph : Phase)
deriving DecidableEq, Repr

/-- A batch yielded by a dataloader: the inputs (abstract type `I`) and
the integer class labels, as parallel lists. -/
structure Batch (I : Type) where
  inputs : List I
  labels : List Nat
deriving DecidableEq, Repr

/-- Embeds `inputs.size(0)`: the number of samples in the batch. -/
def Batch.size {I : Type} (b : Batch I) : Nat := b.inputs.length

/-- Embeds `torch.sum(preds == labels.data)`: the number of positions
where the predicted label equals the ground-truth label. -/
def countCorrect (preds labels : List Nat) : Nat :=
  (List.zip preds labels).countP fun p => p.1 == p.2

/-- The framework operations the script calls but does not implement:
the forward pass + criterion (`lossOn`), the argmax predictions
(`predsOn`), the effect of `loss.backward(); optimizer.step()` on the
parameters (`optimStep`, which may depend on the scheduler state through
the learning rate), and `scheduler.step()` (`schedStep`).  `W` is the
type of parameter snapshots (`model.state_dict()` copies), `S` the
scheduler state, `I` the input tensors. -/
structure Ops (W S I : Type) where
  lossOn : W → Batch I → ℚ
  predsOn : W → Batch I → List Nat
  optimStep : S → W → Batch I → W
  schedStep : S → S

variable {W S I : Type}

/-- The accumulator of the per-phase batch loop of `train_model`:
the live parameters, `running_loss`, `running_corrects`, plus a record
of the per-batch loss values and of the events emitted. -/
structure PhaseAcc (W : Type) where
  weights : W
  runningLoss : ℚ
  runningCorrects : Nat
  batchLosses : List ℚ
  trace : List Event
deriving DecidableEq, Repr

/-- One iteration of `for inputs, labels in dataloaders[phase]`:
forward pass, then backward + optimizer step only in the train phase,
then statistics accumulation (`running_loss += loss.item() * inputs.size(0)`,
`running_corrects += torch.sum(preds == labels.data)`). -/
def processBatch (ops : Ops W S I) (ph : Phase) (sched : S)
    (acc : PhaseAcc W) (b : Batch I) : PhaseAcc W :=
  let loss := ops.lossOn acc.weights b
  let preds := ops.predsOn acc.weights b
  let acc1 : PhaseAcc W :=
    if ph = Phase.train then
      { acc with
        weights := ops.optimStep sched acc.weights b
        trace := acc.trace ++ [Event.gradStep] }
    else acc
  { acc1 with
    runningLoss := acc1.runningLoss + loss * (b.size : ℚ)
    runningCorrects := acc1.runningCorrects + countCorrect preds b.labels
    batchLosses := acc1.batchLosses ++ [loss]
    trace := acc1.trace ++ [Event.batchDone ph] }

/-- The batch loop of one phase, starting from live parameters `w` with
zeroed statistics. -/
def runPhase (ops : Ops W S I) (ph : Phase) (sched : S)
    (w : W) (batches : List (Batch I)) : PhaseAcc W :=
  List.foldl (processBatch ops ph sched) ⟨w, 0, 0, [], []⟩ batches

/-- The state threaded through the epoch loop of `train_model`:
live parameters and scheduler state, `best_model_wts` / `best_acc`,
the `train_val_losses` dictionary as two lists, plus observation
records (each val phase's epoch accuracy and the live parameters at
that point, each train phase's epoch accuracy, and the event trace). -/
structure TrainState (W S : Type) where
  weights : W
  sched : S
  bestWts : W
  bestAcc : ℚ
  lossesTrain : List ℚ
  lossesVal : List ℚ
  accsTrain : List ℚ
  valAccs : List ℚ
  valSnaps : List W
  trace : List Event
deriving DecidableEq, Repr

/-- The body of `for phase in ['train', 'val']`: in the train phase the
scheduler is advanced first, then the batch loop runs, then
`epoch_loss`/`epoch_acc` are computed by dividing by the dataset size
and the loss is appended to the phase's series; after the val phase the
best snapshot is replaced iff `epoch_acc > best_acc`. -/
def runPhaseStep (ops : Ops W S I) (dl : Phase → List (Batch I))
    (dsSize : Phase → Nat) (st : TrainState W S) (ph : Phase) :
    TrainState W S :=
  let sched1 := if ph = Phase.train then ops.schedStep st.sched else st.sched
  let preTrace : List Event :=
    if ph = Phase.train then [Event.schedAdvance] else []
  let acc := runPhase ops ph sched1 st.weights (dl ph)
  let epochLoss : ℚ := acc.runningLoss / (dsSize ph : ℚ)
  let epochAcc : ℚ := (acc.runningCorrects : ℚ) / (dsSize ph : ℚ)
  let st1 : TrainState W S :=
    { st with
      weights := acc.weights
      sched := sched1
      trace := st.trace ++ preTrace ++ acc.trace
      lossesTrain :=
        if ph = Phase.train then st.lossesTrain ++ [epochLoss]
        else st.lossesTrain
      lossesVal :=
        if ph = Phase.val then st.lossesVal ++ [epochLoss]
        else st.lossesVal
      accsTrain :=
        if ph = Phase.train then st.accsTrain ++ [epochAcc]
        else st.accsTrain
      valAccs :=
        if ph = Phase.val then st.valAccs ++ [epochAcc] else st.valAccs
      valSnaps :=
        if ph = Phase.val then st.valSnaps ++ [acc.weights]
        else st.valSnaps }
  if ph = Phase.val ∧ epochAcc > st.bestAcc then
    { st1 with bestAcc := epochAcc, bestWts := acc.weights }
  else st1

/-- One epoch: the train phase followed by the val phase. -/
def runEpoch (ops : Ops W S I) (dl : Phase → List (Batch I))
    (dsSize : Phase → Nat) (st : TrainState W S) : TrainState W S :=
  runPhaseStep ops dl dsSize (runPhaseStep ops dl dsSize st Phase.train)
    Phase.val

/-- Embeds `for epoch in range(num_epochs)`. -/
def runEpochs (ops : Ops W S I) (dl : Phase → List (Batch I))
    (dsSize : Phase → Nat) : Nat → TrainState W S → TrainState W S
  | 0, st => st
  | n + 1, st => runEpochs ops dl dsSize n (runEpoch ops dl dsSize st)

/-- The state at entry of `train_model`: `best_model_wts` is a deep copy
of the parameters at entry and `best_acc = 0.0`. -/
def initState (w0 : W) (s0 : S) : TrainState W S :=
  { weights := w0
    sched := s0
    bestWts := w0
    bestAcc := 0
    lossesTrain := []
    lossesVal := []
    accsTrain := []
    valAccs := []
    valSnaps := []
    trace := [] }

/-- Embeds `train_model`: run the epochs, then
`model.load_state_dict(best_model_wts); return model`.  The first
component is the parameter snapshot of the returned model; the second
is the final loop state (whose loss lists are what
`plot_learning_curve` receives). -/
def train_model (ops : Ops W S I) (dl : Phase → List (Batch I))
    (dsSize : Phase → Nat) (w0 : W) (s0 : S) (numEpochs : Nat) :
    W × TrainState W S :=
  let final := runEpochs ops dl dsSize numEpochs (initState w0 s0)
  (final.bestWts, final)

/-- The validation accuracy of a fixed parameter snapshot `w`: the val
phase computes predictions batch by batch without changing `w`, so the
epoch accuracy it reports is this function of `w`. -/
def valAccOf (ops : Ops W S I) (dl : Phase → List (Batch I))
    (dsSize : Phase → Nat) (w : W) : ℚ :=
  (((dl Phase.val).map fun b => countCorrect (ops.predsOn w b) b.labels).sum
      : ℚ) / (dsSize Phase.val : ℚ)

/-! ### `visualize_model` -/

/-- The state of `visualize_model`: `was_training` (the mode saved at
entry) and the model's current mode flag, the counters `images_so_far`,
`total`, `correct`, the three accumulated parallel lists, plus
observation records: how many samples were rendered, the calls made to
`compute_roc_metrics` (with their arguments), and whether the
array-dumping prints in the early-return block ran. -/
structure VizState where
  wasTraining : Bool
  modelTraining : Bool
  imagesSoFar : Nat
  total : Nat
  correct : Nat
  probEstimates : List ℚ
  predEstimates : List Nat
  predGroundtruth : List Nat
  rendered : Nat
  rocCalls : List (List Nat × List ℚ)
  arraysPrinted : Bool
deriving DecidableEq, Repr

/-- The inner loop `for j in range(inputs.size()[0])` of
`visualize_model`, with `rem` iterations left and current index `j`.
Each iteration renders one sample, then adds the WHOLE batch's size to
`total` (`total += labels.size(0)`) and the whole batch's correct count
to `correct` (`correct += (preds == labels).sum().item()`), appends
`100 * correct / total` to the score list and `preds[j]` / `labels[j]`
to the prediction/ground-truth lists, and, when `images_so_far`
reaches `num_images`, restores the mode, prints the arrays, calls
`compute_roc_metrics` and returns (flag `true`). -/
def vizInner (numImages : Nat) (preds labels : List Nat)
    (batchSize batchCorrect : Nat) :
    Nat → Nat → VizState → VizState × Bool
  | 0, _, st => (st, false)
  | rem + 1, j, st =>
    let st1 : VizState :=
      { st with
        imagesSoFar := st.imagesSoFar + 1
        rendered := st.rendered + 1
        total := st.total + batchSize
        correct := st.correct + batchCorrect }
    let probability : ℚ := 100 * (st1.correct : ℚ) / (st1.total : ℚ)
    let st2 : VizState :=
      { st1 with
        probEstimates := st1.probEstimates ++ [probability]
        predEstimates := st1.predEstimates ++ [preds.getD j 0]
        predGroundtruth := st1.predGroundtruth ++ [labels.getD j 0] }
    if st2.imagesSoFar = numImages then
      ({ st2 with
          modelTraining := st2.wasTraining
          arraysPrinted := true
          rocCalls :=
            st2.rocCalls ++ [(st2.predGroundtruth, st2.probEstimates)] },
        true)
    else
      vizInner numImages preds labels batchSize batchCorrect rem (j + 1) st2

/-- The outer loop `for i, (inputs, labels) in enumerate(dataloaders['val'])`:
compute the batch's predictions, run the inner loop; if it returned
early, stop; when the loader is exhausted, restore the model's mode. -/
def vizOuter (ops : Ops W S I) (w : W) (numImages : Nat) :
    List (Batch I) → VizState → VizState
  | [], st => { st with modelTraining := st.wasTraining }
  | b :: bs, st =>
    let preds := ops.predsOn w b
    let bc := countCorrect preds b.labels
    let r := vizInner numImages preds b.labels b.size bc b.size 0 st
    if r.2 then r.1 else vizOuter ops w numImages bs r.1

/-- Embeds `visualize_model(model, num_images)`: save `was_training`, put the
model in eval mode, zero the counters and lists, and run the loops over
the validation loader.  The model's parameters `w` are read-only
throughout (`torch.no_grad()`). -/
def visualize_model (ops : Ops W S I) (valBatches : List (Batch I))
    (w : W) (wasTraining : Bool) (numImages : Nat) : VizState :=
  vizOuter ops w numImages valBatches
    { wasTraining := wasTraining
      modelTraining := false
      imagesSoFar := 0
      total := 0
      correct := 0
      probEstimates := []
      predEstimates := []
      predGroundtruth := []
      rendered := 0
      rocCalls := []
      arraysPrinted := false }

/-- Total number of samples the validation loader yields. -/
def totalSamples (batches : List (Batch I)) : Nat :=
  (batches.map Batch.size).sum

/-! ### Claim-side definitions -/

/-- The per-batch statistics a phase produces, in loop order: for each
batch, the loss value the forward pass computes on it, the number of
correct predictions in it, and its size — with the parameters evolving
by one optimizer step per batch in the train phase and staying fixed in
the val phase. -/
def phaseStats (ops : Ops W S I) (ph : Phase) (sched : S) :
    W → List (Batch I) → List (ℚ × Nat × Nat)
  | _, [] => []
  | w, b :: bs =>
    (ops.lossOn w b, countCorrect (ops.predsOn w b) b.labels, b.size) ::
      phaseStats ops ph sched
        (if ph = Phase.train then ops.optimStep sched w b else w) bs

/-- Sum over the phase's batches of (batch loss times batch size). -/
def weightedLossSum (l : List (ℚ × Nat × Nat)) : ℚ :=
  (l.map fun p => p.1 * (p.2.2 : ℚ)).sum

/-- Total count of correct predictions over the phase's batches. -/
def correctSum (l : List (ℚ × Nat × Nat)) : Nat :=
  (l.map fun p => p.2.1).sum

/-- Per-sample correctness of a batch: whether each predicted label
equals the ground-truth label. -/
def sampleCorrectness (preds labels : List Nat) : List Bool :=
  (List.zip preds labels).map fun p => p.1 == p.2

/-- Per-sample correctness of the samples of the validation loader, in
visitation order. -/
def visitedCorrectness (ops : Ops W S I) (w : W)
    (batches : List (Batch I)) : List Bool :=
  (batches.map fun b => sampleCorrectness (ops.predsOn w b) b.labels).flatten

/-- Claim-side definition, following the claim's words: the cumulative
running accuracy over the samples visualized so far — 100 times the
count of correct predictions so far divided by the count of samples so
far — starting from `c` correct out of `t`. -/
def cumulativeAccuracies : Nat → Nat → List Bool → List ℚ
  | _, _, [] => []
  | c, t, ok :: rest =>
    let c1 := if ok then c + 1 else c
    (100 * (c1 : ℚ) / ((t + 1 : Nat) : ℚ)) ::
      cumulativeAccuracies c1 (t + 1) rest

/-- For each visualized sample, the pair the code actually accumulates
into its counters: the number of correct predictions in the sample's
whole batch and the size of that batch, repeated once per sample of the
batch. -/
def batchPairSeq (ops : Ops W S I) (w : W) :
    List (Batch I) → List (Nat × Nat)
  | [] => []
  | b :: bs =>
    List.replicate b.size
        (countCorrect (ops.predsOn w b) b.labels, b.size) ++
      batchPairSeq ops w bs

/-- Running scores built from per-sample (batch-correct, batch-size)
pairs: each step adds the pair to the counters `c` and `t` and emits
100 times c divided by t. -/
def runningScores : Nat → Nat → List (Nat × Nat) → List ℚ
  | _, _, [] => []
  | c, t, p :: rest =>
    (100 * ((c + p.1 : Nat) : ℚ) / ((t + p.2 : Nat) : ℚ)) ::
      runningScores (c + p.1) (t + p.2) rest

/-- The invariant of the epoch loop relating the best snapshot to the
recorded validation accuracies: accuracies are nonnegative and bounded
by the best accuracy, each recorded accuracy is the validation accuracy
of the recorded snapshot, and the best snapshot is either still the
entry snapshot (with best accuracy 0) or the snapshot of the first
epoch attaining the maximum observed validation accuracy. -/
def goodState (ops : Ops W S I) (dl : Phase → List (Batch I))
    (ds : Phase → Nat) (w0 : W) (st : TrainState W S) : Prop :=
  st.valSnaps.length = st.valAccs.length ∧
  0 ≤ st.bestAcc ∧
  (∀ i, i < st.valAccs.length →
    0 ≤ st.valAccs.getD i 0 ∧ st.valAccs.getD i 0 ≤ st.bestAcc ∧
    valAccOf ops dl ds (st.valSnaps.getD i w0) = st.valAccs.getD i 0) ∧
  ((st.bestAcc = 0 ∧ st.bestWts = w0) ∨
    (0 < st.bestAcc ∧ ∃ i, i < st.valAccs.length ∧
      st.valAccs.getD i 0 = st.bestAcc ∧
      (∀ j, j < i → st.valAccs.getD j 0 < st.bestAcc) ∧
      st.valSnaps.getD i w0 = st.bestWts))

/-- Claim-side statement of the C2 invariant: the best snapshot is the
live-parameter snapshot recorded at the epoch with the maximum observed
validation accuracy, ties favoring the earlier epoch. -/
def bestIsFirstArgmax (w0 : W) (st : TrainState W S) : Prop :=
  ∃ i, i < st.valAccs.length ∧
    (∀ j, j < st.valAccs.length →
      st.valAccs.getD j 0 ≤ st.valAccs.getD i 0) ∧
    (∀ j, j < i → st.valAccs.getD j 0 < st.valAccs.getD i 0) ∧
    st.bestWts = st.valSnaps.getD i w0

/-! ### Dataset loading (spec-modelled) -/

/-- The layout of the dataset root directory: for each of the train and
val subfolders, the class subdirectories with their image counts. -/
structure DataDirLayout where
  trainClasses : List (String × Nat)
  valClasses : List (String × Nat)
deriving DecidableEq, Repr

/-- Class names derived from subdirectory names, sorted
lexicographically. -/
def classNamesSorted (cs : List (String × Nat)) : List String :=
  List.insertionSort (fun a b => a ≤ b) (cs.map Prod.fst)

/-- Modelled from the spec: the dataset construction performed at
module load by torchvision's ImageFolder (external code, not in the
repository), which per the spec fails "if a subfolder is missing or
empty, or if class directory structure is inconsistent between
train/val". -/
def dataLoadOk (d : DataDirLayout) : Bool :=
  !d.trainClasses.isEmpty && !d.valClasses.isEmpty &&
    d.trainClasses.all (fun c => decide (0 < c.2)) &&
    d.valClasses.all (fun c => decide (0 < c.2)) &&
    (classNamesSorted d.trainClasses == classNamesSorted d.valClasses)

/-- The fatal error class of the data pipeline. -/
inductive ScriptError
  | dataLoadError
deriving DecidableEq, Repr

/-- Claim-side predicate: some train/val class subfolder is missing or
empty. -/
def missingOrEmptyClassDir (d : DataDirLayout) : Prop :=
  d.trainClasses = [] ∨ d.valClasses = [] ∨
    (∃ c ∈ d.trainClasses, c.2 = 0) ∨ (∃ c ∈ d.valClasses, c.2 = 0)

/-- Claim-side predicate: the class directory structure differs between
train and val. -/
def inconsistentClassDirs (d : DataDirLayout) : Prop :=
  classNamesSorted d.trainClasses ≠ classNamesSorted d.valClasses

/-- Modelled from the spec: the module-level flow of the script.
Datasets are loaded first, at import time; if loading fails the run
aborts fatally before `train_model` is ever invoked; otherwise the two
transfer-learning scenarios each run `train_model` in sequence and the
trained models are produced. -/
def runScript (ops : Ops W S I) (dl : Phase → List (Batch I))
    (dsSize : Phase → Nat) (d : DataDirLayout) (wFt wConv : W) (s0 : S)
    (numEpochs : Nat) :
    Except ScriptError (List (W × TrainState W S)) :=
  if dataLoadOk d then
    Except.ok [train_model ops dl dsSize wFt s0 numEpochs,
      train_model ops dl dsSize wConv s0 numEpochs]
  else Except.error ScriptError.dataLoadError

/-! ### Concrete instances used by witnesses and counterexamples -/

/-- Concrete operations on natural-number weights whose predictions
never match the labels of the one-sample validation batch below: every
epoch's validation accuracy is 0 while the optimizer still moves the
weights. -/
def opsAllWrong : Ops Nat Nat Nat :=
  { lossOn := fun _ _ => 1 / 2
    predsOn := fun _ _ => [5]
    optimStep := fun _ w _ => w + 1
    schedStep := fun s => s + 1 }

/-- Concrete operations whose predictions always equal the labels. -/
def opsAllRight : Ops Nat Nat Nat :=
  { lossOn := fun _ _ => 1 / 2
    predsOn := fun _ b => b.labels
    optimStep := fun _ w _ => w + 1
    schedStep := fun s => s + 1 }

/-- A concrete dataloader: one train batch and one val batch of one
sample each. -/
def dlOne : Phase → List (Batch Nat)
  | Phase.train => [⟨[0], [0]⟩]
  | Phase.val => [⟨[0], [7]⟩]

/-- Dataset sizes matching `dlOne`. -/
def dsOne : Phase → Nat := fun _ => 1

/-- Concrete operations for the visualization instances: on the
two-sample batch below the first prediction is correct and the second
is wrong. -/
def opsViz : Ops Nat Nat Nat :=
  { lossOn := fun _ _ => 0
    predsOn := fun _ _ => [0, 0]
    optimStep := fun _ w _ => w
    schedStep := fun s => s }

/-- A single validation batch of two samples with labels 0 and 1. -/
def vizBatch : Batch Nat := ⟨[10, 11], [0, 1]⟩

/-- A validation loader of 24 one-sample batches, labels all 0. -/
def vizBatches24 : List (Batch Nat) := List.replicate 24 ⟨[0], [0]⟩

/-- A bad dataset layout: the train subfolder's only class directory is
empty. -/
def layoutBad : DataDirLayout := ⟨[("a", 0)], [("a", 1)]⟩

/-! ### Batch-loop lemmas -/

theorem processBatch_weights (ops : Ops W S I) (ph : Phase) (sched : S)
    (acc : PhaseAcc W) (b : Batch I) :
    (processBatch ops ph sched acc b).weights =
      if ph = Phase.train then ops.optimStep sched acc.weights b
      else acc.weights := by
  cases ph <;> rfl

theorem processBatch_runningLoss (ops : Ops W S I) (ph : Phase)
    (sched : S) (acc : PhaseAcc W) (b : Batch I) :
    (processBatch ops ph sched acc b).runningLoss =
      acc.runningLoss + ops.lossOn acc.weights b * (b.size : ℚ) := by
  cases ph <;> rfl

theorem processBatch_runningCorrects (ops : Ops W S I) (ph : Phase)
    (sched : S) (acc : PhaseAcc W) (b : Batch I) :
    (processBatch ops ph sched acc b).runningCorrects =
      acc.runningCorrects +
        countCorrect (ops.predsOn acc.weights b) b.labels := by
  cases ph <;> rfl

theorem processBatch_trace (ops : Ops W S I) (ph : Phase) (sched : S)
    (acc : PhaseAcc W) (b : Batch I) :
    (processBatch ops ph sched acc b).trace =
      acc.trace ++ (if ph = Phase.train then [Event.gradStep] else []) ++
        [Event.batchDone ph] := by
  cases ph <;> simp [processBatch]

theorem foldl_runningLoss (ops : Ops W S I) (ph : Phase) (sched : S)
    (batches : List (Batch I)) :
    ∀ acc : PhaseAcc W,
      (List.foldl (processBatch ops ph sched) acc batches).runningLoss =
        acc.runningLoss +
          weightedLossSum (phaseStats ops ph sched acc.weights batches) := by
  induction batches with
  | nil => intro acc; simp [phaseStats, weightedLossSum]
  | cons b bs ih =>
    intro acc
    rw [List.foldl_cons, ih, processBatch_runningLoss, processBatch_weights]
    simp only [phaseStats, weightedLossSum, List.map_cons, List.sum_cons]
    ring

theorem foldl_runningCorrects (ops : Ops W S I) (ph : Phase) (sched : S)
    (batches : List (Batch I)) :
    ∀ acc : PhaseAcc W,
      (List.foldl (processBatch ops ph sched) acc batches).runningCorrects =
        acc.runningCorrects +
          correctSum (phaseStats ops ph sched acc.weights batches) := by
  induction batches with
  | nil => intro acc; simp [phaseStats, correctSum]
  | cons b bs ih =>
    intro acc
    rw [List.foldl_cons, ih, processBatch_runningCorrects,
      processBatch_weights]
    simp only [phaseStats, correctSum, List.map_cons, List.sum_cons]
    omega

theorem foldl_val_weights (ops : Ops W S I) (sched : S)
    (batches : List (Batch I)) :
    ∀ acc : PhaseAcc W,
      (List.foldl (processBatch ops Phase.val sched) acc batches).weights =
        acc.weights := by
  induction batches with
  | nil => intro acc; rfl
  | cons b bs ih =>
    intro acc
    rw [List.foldl_cons, ih, processBatch_weights]
    rfl

theorem foldl_trace_mem (ops : Ops W S I) (ph : Phase) (sched : S)
    (batches : List (Batch I)) :
    ∀ acc : PhaseAcc W,
      ∀ e ∈ (List.foldl (processBatch ops ph sched) acc batches).trace,
        e ∈ acc.trace ∨ (e = Event.gradStep ∧ ph = Phase.train) ∨
          e = Event.batchDone ph := by
  induction batches with
  | nil => intro acc e he; exact Or.inl he
  | cons b bs ih =>
    intro acc e he
    rcases ih (processBatch ops ph sched acc b) e he with h | h | h
    · rw [processBatch_trace] at h
      rcases List.mem_append.1 h with h1 | h1
      · rcases List.mem_append.1 h1 with h2 | h2
        · exact Or.inl h2
        · cases ph with
          | train =>
            simp only [if_pos rfl] at h2
            rcases List.mem_singleton.1 h2 with rfl
            exact Or.inr (Or.inl ⟨rfl, rfl⟩)
          | val => simp at h2
      · rcases List.mem_singleton.1 h1 with rfl
        exact Or.inr (Or.inr rfl)
    · exact Or.inr (Or.inl h)
    · exact Or.inr (Or.inr h)

theorem runPhase_runningLoss (ops : Ops W S I) (ph : Phase) (sched : S)
    (w : W) (batches : List (Batch I)) :
    (runPhase ops ph sched w batches).runningLoss =
      weightedLossSum (phaseStats ops ph sched w batches) := by
  have := foldl_runningLoss ops ph sched batches ⟨w, 0, 0, [], []⟩
  simpa [runPhase] using this

theorem runPhase_runningCorrects (ops : Ops W S I) (ph : Phase)
    (sched : S) (w : W) (batches : List (Batch I)) :
    (runPhase ops ph sched w batches).runningCorrects =
      correctSum (phaseStats ops ph sched w batches) := by
  have := foldl_runningCorrects ops ph sched batches ⟨w, 0, 0, [], []⟩
  simpa [runPhase] using this

theorem runPhase_val_weights (ops : Ops W S I) (sched : S) (w : W)
    (batches : List (Batch I)) :
    (runPhase ops Phase.val sched w batches).weights = w :=
  foldl_val_weights ops sched batches ⟨w, 0, 0, [], []⟩

theorem runPhase_trace_no_sched (ops : Ops W S I) (ph : Phase)
    (sched : S) (w : W) (batches : List (Batch I)) :
    Event.schedAdvance ∉ (runPhase ops ph sched w batches).trace := by
  intro h
  rcases foldl_trace_mem ops ph sched batches ⟨w, 0, 0, [], []⟩
      Event.schedAdvance h with h1 | h1 | h1
  · simp at h1
  · exact absurd h1.1 (by simp)
  · exact absurd h1 (by simp)

theorem runPhase_val_trace_no_grad (ops : Ops W S I) (sched : S) (w : W)
    (batches : List (Batch I)) :
    Event.gradStep ∉ (runPhase ops Phase.val sched w batches).trace := by
  intro h
  rcases foldl_trace_mem ops Phase.val sched batches ⟨w, 0, 0, [], []⟩
      Event.gradStep h with h1 | h1 | h1
  · simp at h1
  · exact absurd h1.2 (by simp)
  · exact absurd h1 (by simp)

theorem phaseStats_val (ops : Ops W S I) (sched : S)
    (batches : List (Batch I)) :
    ∀ w : W,
      phaseStats ops Phase.val sched w batches =
        batches.map fun b =>
          (ops.lossOn w b, countCorrect (ops.predsOn w b) b.labels,
            b.size) := by
  induction batches with
  | nil => intro w; rfl
  | cons b bs ih =>
    intro w
    simp only [phaseStats, List.map_cons]
    rw [if_neg (by simp)]
    rw [ih]

theorem correctSum_val (ops : Ops W S I) (sched : S) (w : W)
    (batches : List (Batch I)) :
    correctSum (phaseStats ops Phase.val sched w batches) =
      ((batches.map fun b =>
        countCorrect (ops.predsOn w b) b.labels)).sum := by
  rw [phaseStats_val, correctSum, List.map_map]
  rfl

/-! ### Phase-step characterization -/

theorem runPhaseStep_train_eq (ops : Ops W S I)
    (dl : Phase → List (Batch I)) (ds : Phase → Nat)
    (st : TrainState W S) :
    runPhaseStep ops dl ds st Phase.train =
      { st with
        weights := (runPhase ops Phase.train (ops.schedStep st.sched)
          st.weights (dl Phase.train)).weights
        sched := ops.schedStep st.sched
        trace := st.trace ++ [Event.schedAdvance] ++
          (runPhase ops Phase.train (ops.schedStep st.sched) st.weights
            (dl Phase.train)).trace
        lossesTrain := st.lossesTrain ++
          [(runPhase ops Phase.train (ops.schedStep st.sched) st.weights
              (dl Phase.train)).runningLoss / (ds Phase.train : ℚ)]
        accsTrain := st.accsTrain ++
          [((runPhase ops Phase.train (ops.schedStep st.sched) st.weights
              (dl Phase.train)).runningCorrects : ℚ) /
            (ds Phase.train : ℚ)] } := by
  simp [runPhaseStep]

theorem runPhaseStep_val_eq (ops : Ops W S I)
    (dl : Phase → List (Batch I)) (ds : Phase → Nat)
    (st : TrainState W S) :
    runPhaseStep ops dl ds st Phase.val =
      (let a := valAccOf ops dl ds st.weights
       let st1 : TrainState W S :=
        { st with
          trace := st.trace ++
            (runPhase ops Phase.val st.sched st.weights
              (dl Phase.val)).trace
          lossesVal := st.lossesVal ++
            [(runPhase ops Phase.val st.sched st.weights
                (dl Phase.val)).runningLoss / (ds Phase.val : ℚ)]
          valAccs := st.valAccs ++ [a]
          valSnaps := st.valSnaps ++ [st.weights] }
       if st.bestAcc < a then
        { st1 with bestAcc := a, bestWts := st.weights }
       else st1) := by
  have hw := runPhase_val_weights ops st.sched st.weights (dl Phase.val)
  have hc := runPhase_runningCorrects ops Phase.val st.sched st.weights
    (dl Phase.val)
  rw [correctSum_val] at hc
  simp [runPhaseStep, hw, hc, gt_iff_lt, valAccOf]

theorem runPhaseStep_val_trace (ops : Ops W S I)
    (dl : Phase → List (Batch I)) (ds : Phase → Nat)
    (st : TrainState W S) :
    (runPhaseStep ops dl ds st Phase.val).trace =
      st.trace ++
        (runPhase ops Phase.val st.sched st.weights (dl Phase.val)).trace := by
  rw [runPhaseStep_val_eq]
  dsimp only
  split <;> rfl

theorem runPhaseStep_val_valAccs (ops : Ops W S I)
    (dl : Phase → List (Batch I)) (ds : Phase → Nat)
    (st : TrainState W S) :
    (runPhaseStep ops dl ds st Phase.val).valAccs =
      st.valAccs ++ [valAccOf ops dl ds st.weights] := by
  rw [runPhaseStep_val_eq]
  dsimp only
  split <;> rfl

theorem runPhaseStep_val_valSnaps (ops : Ops W S I)
    (dl : Phase → List (Batch I)) (ds : Phase → Nat)
    (st : TrainState W S) :
    (runPhaseStep ops dl ds st Phase.val).valSnaps =
      st.valSnaps ++ [st.weights] := by
  rw [runPhaseStep_val_eq]
  dsimp only
  split <;> rfl

theorem runPhaseStep_val_bestAcc (ops : Ops W S I)
    (dl : Phase → List (Batch I)) (ds : Phase → Nat)
    (st : TrainState W S) :
    (runPhaseStep ops dl ds st Phase.val).bestAcc =
      if st.bestAcc < valAccOf ops dl ds st.weights then
        valAccOf ops dl ds st.weights
      else st.bestAcc := by
  rw [runPhaseStep_val_eq]
  dsimp only
  split <;> rfl

theorem runPhaseStep_val_bestWts (ops : Ops W S I)
    (dl : Phase → List (Batch I)) (ds : Phase → Nat)
    (st : TrainState W S) :
    (runPhaseStep ops dl ds st Phase.val).bestWts =
      if st.bestAcc < valAccOf ops dl ds st.weights then st.weights
      else st.bestWts := by
  rw [runPhaseStep_val_eq]
  dsimp only
  split <;> rfl

theorem runPhaseStep_val_lossesTrain (ops : Ops W S I)
    (dl : Phase → List (Batch I)) (ds : Phase → Nat)
    (st : TrainState W S) :
    (runPhaseStep ops dl ds st Phase.val).lossesTrain = st.lossesTrain := by
  rw [runPhaseStep_val_eq]
  dsimp only
  split <;> rfl

theorem runPhaseStep_val_lossesVal (ops : Ops W S I)
    (dl : Phase → List (Batch I)) (ds : Phase → Nat)
    (st : TrainState W S) :
    (runPhaseStep ops dl ds st Phase.val).lossesVal =
      st.lossesVal ++
        [(runPhase ops Phase.val st.sched st.weights
            (dl Phase.val)).runningLoss / (ds Phase.val : ℚ)] := by
  rw [runPhaseStep_val_eq]
  dsimp only
  split <;> rfl

theorem runPhaseStep_train_valAccs (ops : Ops W S I)
    (dl : Phase → List (Batch I)) (ds : Phase → Nat)
    (st : TrainState W S) :
    (runPhaseStep ops dl ds st Phase.train).valAccs = st.valAccs := by
  rw [runPhaseStep_train_eq]

theorem runPhaseStep_train_valSnaps (ops : Ops W S I)
    (dl : Phase → List (Batch I)) (ds : Phase → Nat)
    (st : TrainState W S) :
    (runPhaseStep ops dl ds st Phase.train).valSnaps = st.valSnaps := by
  rw [runPhaseStep_train_eq]

theorem runPhaseStep_train_bestAcc (ops : Ops W S I)
    (dl : Phase → List (Batch I)) (ds : Phase → Nat)
    (st : TrainState W S) :
    (runPhaseStep ops dl ds st Phase.train).bestAcc = st.bestAcc := by
  rw [runPhaseStep_train_eq]

theorem runPhaseStep_train_bestWts (ops : Ops W S I)
    (dl : Phase → List (Batch I)) (ds : Phase → Nat)
    (st : TrainState W S) :
    (runPhaseStep ops dl ds st Phase.train).bestWts = st.bestWts := by
  rw [runPhaseStep_train_eq]

theorem runPhaseStep_train_lossesVal (ops : Ops W S I)
    (dl : Phase → List (Batch I)) (ds : Phase → Nat)
    (st : TrainState W S) :
    (runPhaseStep ops dl ds st Phase.train).lossesVal = st.lossesVal := by
  rw [runPhaseStep_train_eq]

theorem runPhaseStep_train_lossesTrain (ops : Ops W S I)
    (dl : Phase → List (Batch I)) (ds : Phase → Nat)
    (st : TrainState W S) :
    (runPhaseStep ops dl ds st Phase.train).lossesTrain =
      st.lossesTrain ++
        [(runPhase ops Phase.train (ops.schedStep st.sched) st.weights
            (dl Phase.train)).runningLoss / (ds Phase.train : ℚ)] := by
  rw [runPhaseStep_train_eq]

theorem runPhaseStep_train_trace (ops : Ops W S I)
    (dl : Phase → List (Batch I)) (ds : Phase → Nat)
    (st : TrainState W S) :
    (runPhaseStep ops dl ds st Phase.train).trace =
      st.trace ++ [Event.schedAdvance] ++
        (runPhase ops Phase.train (ops.schedStep st.sched) st.weights
          (dl Phase.train)).trace := by
  rw [runPhaseStep_train_eq]

/-! ### Epoch-level bookkeeping -/

theorem runEpoch_lengths (ops : Ops W S I) (dl : Phase → List (Batch I))
    (ds : Phase → Nat) (st : TrainState W S) :
    (runEpoch ops dl ds st).lossesTrain.length =
        st.lossesTrain.length + 1 ∧
    (runEpoch ops dl ds st).lossesVal.length = st.lossesVal.length + 1 ∧
    (runEpoch ops dl ds st).valAccs.length = st.valAccs.length + 1 ∧
    (runEpoch ops dl ds st).valSnaps.length = st.valSnaps.length + 1 := by
  unfold runEpoch
  rw [runPhaseStep_val_lossesTrain, runPhaseStep_val_lossesVal,
    runPhaseStep_val_valAccs, runPhaseStep_val_valSnaps,
    runPhaseStep_train_lossesTrain, runPhaseStep_train_lossesVal,
    runPhaseStep_train_valAccs, runPhaseStep_train_valSnaps]
  simp

theorem runEpochs_lengths (ops : Ops W S I) (dl : Phase → List (Batch I))
    (ds : Phase → Nat) :
    ∀ (n : Nat) (st : TrainState W S),
      (runEpochs ops dl ds n st).lossesTrain.length =
          st.lossesTrain.length + n ∧
      (runEpochs ops dl ds n st).lossesVal.length =
          st.lossesVal.length + n ∧
      (runEpochs ops dl ds n st).valAccs.length =
          st.valAccs.length + n ∧
      (runEpochs ops dl ds n st).valSnaps.length =
          st.valSnaps.length + n := by
  intro n
  induction n with
  | zero => intro st; simp [runEpochs]
  | succ m ih =>
    intro st
    have h1 := runEpoch_lengths ops dl ds st
    have h2 := ih (runEpoch ops dl ds st)
    simp only [runEpochs]
    omega

/-! ### Claims C5, C6, C7 -/

/-- C5: during every VAL phase of `train_model`, batches are processed
without any backward pass or optimizer step (no `gradStep` event is
emitted), so the model's parameters are unchanged by the VAL phase. -/
theorem c5_val_phase_frame (ops : Ops W S I) (sched : S) (w : W)
    (batches : List (Batch I)) :
    (runPhase ops Phase.val sched w batches).weights = w ∧
      Event.gradStep ∉ (runPhase ops Phase.val sched w batches).trace :=
  ⟨runPhase_val_weights ops sched w batches,
    runPhase_val_trace_no_grad ops sched w batches⟩

/-- C6: in every epoch of `train_model`, the learning-rate scheduler is
advanced exactly once, and that advance is the first event of the
epoch — at the start of the TRAIN phase, before any batch of the epoch
is processed and never during the VAL phase. -/
theorem c6_scheduler_once_per_epoch (ops : Ops W S I)
    (dl : Phase → List (Batch I)) (ds : Phase → Nat)
    (st : TrainState W S) :
    ∃ rest,
      (runEpoch ops dl ds st).trace =
          st.trace ++ Event.schedAdvance :: rest ∧
        Event.schedAdvance ∉ rest := by
  unfold runEpoch
  rw [runPhaseStep_val_trace, runPhaseStep_train_trace]
  refine ⟨(runPhase ops Phase.train (ops.schedStep st.sched) st.weights
      (dl Phase.train)).trace ++
    (runPhase ops Phase.val
        (runPhaseStep ops dl ds st Phase.train).sched
        (runPhaseStep ops dl ds st Phase.train).weights
        (dl Phase.val)).trace, ?_, ?_⟩
  · simp
  · intro hmem
    rcases List.mem_append.1 hmem with h | h
    · exact runPhase_trace_no_sched ops Phase.train (ops.schedStep st.sched)
        st.weights (dl Phase.train) h
    · exact runPhase_trace_no_sched ops Phase.val _ _ (dl Phase.val) h

/-- C7: for every phase of every epoch, the reported epoch loss equals
the sum over the phase's batches of (batch loss times batch size)
divided by the dataset size, the reported epoch accuracy equals the
total count of correct predictions divided by the dataset size, each
phase's loss is appended to that phase's series, and when the loss
history is emitted to plotting both series have length equal to the
configured epoch count. -/
theorem c7_epoch_statistics (ops : Ops W S I)
    (dl : Phase → List (Batch I)) (ds : Phase → Nat) (w0 : W) (s0 : S) :
    (∀ (ph : Phase) (sched : S) (w : W),
      (runPhase ops ph sched w (dl ph)).runningLoss =
          weightedLossSum (phaseStats ops ph sched w (dl ph)) ∧
        (runPhase ops ph sched w (dl ph)).runningCorrects =
          correctSum (phaseStats ops ph sched w (dl ph))) ∧
    (∀ st : TrainState W S,
      (runPhaseStep ops dl ds st Phase.train).lossesTrain =
          st.lossesTrain ++
            [weightedLossSum (phaseStats ops Phase.train
                (ops.schedStep st.sched) st.weights (dl Phase.train)) /
              (ds Phase.train : ℚ)] ∧
        (runPhaseStep ops dl ds st Phase.train).accsTrain =
          st.accsTrain ++
            [(correctSum (phaseStats ops Phase.train
                (ops.schedStep st.sched) st.weights (dl Phase.train)) : ℚ) /
              (ds Phase.train : ℚ)] ∧
        (runPhaseStep ops dl ds st Phase.val).lossesVal =
          st.lossesVal ++
            [weightedLossSum (phaseStats ops Phase.val st.sched st.weights
                (dl Phase.val)) / (ds Phase.val : ℚ)] ∧
        (runPhaseStep ops dl ds st Phase.val).valAccs =
          st.valAccs ++ [valAccOf ops dl ds st.weights]) ∧
    ∀ numEpochs : Nat,
      (train_model ops dl ds w0 s0 numEpochs).2.lossesTrain.length =
          numEpochs ∧
        (train_model ops dl ds w0 s0 numEpochs).2.lossesVal.length =
          numEpochs := by
  refine ⟨?_, ?_, ?_⟩
  · intro ph sched w
    exact ⟨runPhase_runningLoss ops ph sched w (dl ph),
      runPhase_runningCorrects ops ph sched w (dl ph)⟩
  · intro st
    refine ⟨?_, ?_, ?_, runPhaseStep_val_valAccs ops dl ds st⟩
    · rw [runPhaseStep_train_lossesTrain, runPhase_runningLoss]
    · rw [runPhaseStep_train_eq]
      rw [runPhase_runningCorrects]
    · rw [runPhaseStep_val_lossesVal, runPhase_runningLoss]
  · intro numEpochs
    have h := runEpochs_lengths ops dl ds numEpochs (initState w0 s0)
    unfold train_model
    simp only [initState] at h
    exact ⟨by simpa using h.1, by simpa using h.2.1⟩

/-! ### Best-snapshot invariant -/

theorem valAccOf_nonneg (ops : Ops W S I) (dl : Phase → List (Batch I))
    (ds : Phase → Nat) (w : W) : 0 ≤ valAccOf ops dl ds w := by
  unfold valAccOf
  positivity

theorem goodState_init (ops : Ops W S I) (dl : Phase → List (Batch I))
    (ds : Phase → Nat) (w0 : W) (s0 : S) :
    goodState ops dl ds w0 (initState w0 s0 : TrainState W S) := by
  refine ⟨rfl, le_refl 0, ?_, Or.inl ⟨rfl, rfl⟩⟩
  intro i hi
  simp [initState] at hi

theorem goodState_trainStep (ops : Ops W S I)
    (dl : Phase → List (Batch I)) (ds : Phase → Nat) (w0 : W)
    (st : TrainState W S) (h : goodState ops dl ds w0 st) :
    goodState ops dl ds w0 (runPhaseStep ops dl ds st Phase.train) := by
  unfold goodState at h ⊢
  rw [runPhaseStep_train_valAccs, runPhaseStep_train_valSnaps,
    runPhaseStep_train_bestAcc, runPhaseStep_train_bestWts]
  exact h

theorem goodState_valStep (ops : Ops W S I)
    (dl : Phase → List (Batch I)) (ds : Phase → Nat) (w0 : W)
    (st : TrainState W S) (h : goodState ops dl ds w0 st) :
    goodState ops dl ds w0 (runPhaseStep ops dl ds st Phase.val) := by
  obtain ⟨hlen, hbnn, hidx, hdisj⟩ := h
  have hannn : 0 ≤ valAccOf ops dl ds st.weights :=
    valAccOf_nonneg ops dl ds st.weights
  unfold goodState
  rw [runPhaseStep_val_valAccs, runPhaseStep_val_valSnaps,
    runPhaseStep_val_bestAcc, runPhaseStep_val_bestWts]
  by_cases hlt : st.bestAcc < valAccOf ops dl ds st.weights
  · simp only [if_pos hlt]
    refine ⟨by simp [hlen], hannn, ?_, ?_⟩
    · intro i hi
      rw [List.length_append, List.length_singleton] at hi
      rcases Nat.lt_or_ge i st.valAccs.length with hilt | hige
      · have e1 := List.getD_append st.valAccs [valAccOf ops dl ds st.weights]
          (0 : ℚ) i hilt
        have hilt2 : i < st.valSnaps.length := by omega
        have e2 := List.getD_append st.valSnaps [st.weights] w0 i hilt2
        obtain ⟨p1, p2, p3⟩ := hidx i hilt
        rw [e1, e2]
        exact ⟨p1, le_trans p2 (le_of_lt hlt), p3⟩
      · have hieq : i = st.valAccs.length := by omega
        have e1 : (st.valAccs ++ [valAccOf ops dl ds st.weights]).getD i 0 =
            valAccOf ops dl ds st.weights := by
          rw [hieq, List.getD_append_right _ _ _ _ (le_refl _)]
          simp
        have e2 : (st.valSnaps ++ [st.weights]).getD i w0 = st.weights := by
          rw [hieq, ← hlen, List.getD_append_right _ _ _ _ (le_refl _)]
          simp
        rw [e1, e2]
        exact ⟨hannn, le_refl _, rfl⟩
    · right
      refine ⟨lt_of_le_of_lt hbnn hlt, st.valAccs.length, by simp, ?_, ?_, ?_⟩
      · rw [List.getD_append_right _ _ _ _ (le_refl _)]
        simp
      · intro j hj
        rw [List.getD_append _ _ _ _ hj]
        obtain ⟨_, q2, _⟩ := hidx j hj
        exact lt_of_le_of_lt q2 hlt
      · rw [← hlen, List.getD_append_right _ _ _ _ (le_refl _)]
        simp
  · simp only [if_neg hlt]
    have hle : valAccOf ops dl ds st.weights ≤ st.bestAcc := not_lt.1 hlt
    refine ⟨by simp [hlen], hbnn, ?_, ?_⟩
    · intro i hi
      rw [List.length_append, List.length_singleton] at hi
      rcases Nat.lt_or_ge i st.valAccs.length with hilt | hige
      · have e1 := List.getD_append st.valAccs [valAccOf ops dl ds st.weights]
          (0 : ℚ) i hilt
        have hilt2 : i < st.valSnaps.length := by omega
        have e2 := List.getD_append st.valSnaps [st.weights] w0 i hilt2
        obtain ⟨p1, p2, p3⟩ := hidx i hilt
        rw [e1, e2]
        exact ⟨p1, p2, p3⟩
      · have hieq : i = st.valAccs.length := by omega
        have e1 : (st.valAccs ++ [valAccOf ops dl ds st.weights]).getD i 0 =
            valAccOf ops dl ds st.weights := by
          rw [hieq, List.getD_append_right _ _ _ _ (le_refl _)]
          simp
        have e2 : (st.valSnaps ++ [st.weights]).getD i w0 = st.weights := by
          rw [hieq, ← hlen, List.getD_append_right _ _ _ _ (le_refl _)]
          simp
        rw [e1, e2]
        exact ⟨hannn, hle, rfl⟩
    · rcases hdisj with ⟨hb0, hbw⟩ | ⟨hbpos, i, hi, hacc, hfirst, hsnap⟩
      · exact Or.inl ⟨hb0, hbw⟩
      · right
        refine ⟨hbpos, i, ?_, ?_, ?_, ?_⟩
        · rw [List.length_append, List.length_singleton]
          omega
        · rw [List.getD_append _ _ _ _ hi]
          exact hacc
        · intro j hj
          have hjlt : j < st.valAccs.length := lt_trans hj hi
          rw [List.getD_append _ _ _ _ hjlt]
          exact hfirst j hj
        · have hilt : i < st.valSnaps.length := by omega
          rw [List.getD_append _ _ _ _ hilt]
          exact hsnap

theorem goodState_runEpoch (ops : Ops W S I)
    (dl : Phase → List (Batch I)) (ds : Phase → Nat) (w0 : W)
    (st : TrainState W S) (h : goodState ops dl ds w0 st) :
    goodState ops dl ds w0 (runEpoch ops dl ds st) :=
  goodState_valStep ops dl ds w0 _
    (goodState_trainStep ops dl ds w0 st h)

theorem goodState_runEpochs (ops : Ops W S I)
    (dl : Phase → List (Batch I)) (ds : Phase → Nat) (w0 : W) :
    ∀ (n : Nat) (st : TrainState W S), goodState ops dl ds w0 st →
      goodState ops dl ds w0 (runEpochs ops dl ds n st) := by
  intro n
  induction n with
  | zero => intro st h; exact h
  | succ m ih =>
    intro st h
    exact ih (runEpoch ops dl ds st) (goodState_runEpoch ops dl ds w0 st h)

/-! ### Concrete evaluations for witnesses -/

theorem valAccOf_allWrong (w : Nat) :
    valAccOf opsAllWrong dlOne dsOne w = 0 := by
  simp [valAccOf, opsAllWrong, dlOne, dsOne, countCorrect]

theorem valAccOf_allRight (w : Nat) :
    valAccOf opsAllRight dlOne dsOne w = 1 := by
  simp [valAccOf, opsAllRight, dlOne, dsOne, countCorrect]

theorem tmAllWrong_final :
    (train_model opsAllWrong dlOne dsOne 0 0 1).2.valAccs = [0] ∧
    (train_model opsAllWrong dlOne dsOne 0 0 1).2.valSnaps = [1] ∧
    (train_model opsAllWrong dlOne dsOne 0 0 1).2.bestWts = 0 := by
  have hst : (train_model opsAllWrong dlOne dsOne 0 0 1).2 =
      runPhaseStep opsAllWrong dlOne dsOne
        (runPhaseStep opsAllWrong dlOne dsOne (initState 0 0) Phase.train)
        Phase.val := rfl
  have h1 : (runPhaseStep opsAllWrong dlOne dsOne (initState 0 0)
      Phase.train).valAccs = [] := by
    rw [runPhaseStep_train_valAccs]; rfl
  have h2 : (runPhaseStep opsAllWrong dlOne dsOne (initState 0 0)
      Phase.train).valSnaps = [] := by
    rw [runPhaseStep_train_valSnaps]; rfl
  have h3 : (runPhaseStep opsAllWrong dlOne dsOne (initState 0 0)
      Phase.train).bestAcc = 0 := by
    rw [runPhaseStep_train_bestAcc]; rfl
  have h4 : (runPhaseStep opsAllWrong dlOne dsOne (initState 0 0)
      Phase.train).bestWts = 0 := by
    rw [runPhaseStep_train_bestWts]; rfl
  have h5 : (runPhaseStep opsAllWrong dlOne dsOne (initState 0 0)
      Phase.train).weights = 1 := by
    rw [runPhaseStep_train_eq]
    simp [runPhase, dlOne, processBatch, opsAllWrong, initState]
  refine ⟨?_, ?_, ?_⟩
  · rw [hst, runPhaseStep_val_valAccs, valAccOf_allWrong, h1]
    rfl
  · rw [hst, runPhaseStep_val_valSnaps, h2, h5]
    rfl
  · rw [hst, runPhaseStep_val_bestWts, valAccOf_allWrong, h3, h4]
    rw [if_neg (lt_irrefl 0)]

theorem tmAllRight_bestAcc :
    (train_model opsAllRight dlOne dsOne 0 0 1).2.bestAcc = 1 := by
  have hst : (train_model opsAllRight dlOne dsOne 0 0 1).2 =
      runPhaseStep opsAllRight dlOne dsOne
        (runPhaseStep opsAllRight dlOne dsOne (initState 0 0) Phase.train)
        Phase.val := rfl
  have h3 : (runPhaseStep opsAllRight dlOne dsOne (initState 0 0)
      Phase.train).bestAcc = 0 := by
    rw [runPhaseStep_train_bestAcc]; rfl
  rw [hst, runPhaseStep_val_bestAcc, valAccOf_allRight, h3]
  rw [if_pos zero_lt_one]

/-! ### Claims C1, C2, C10 -/

/-- C1: for every run of `train_model` with epoch count at least 1, the
returned model is loaded from the best snapshot, and its validation
accuracy is at least the validation accuracy of every individual
epoch's snapshot observed during the run. -/
theorem c1_best_model_dominates (ops : Ops W S I)
    (dl : Phase → List (Batch I)) (ds : Phase → Nat) (w0 : W) (s0 : S)
    (numEpochs : Nat) (h : 1 ≤ numEpochs) :
    ∀ e, e < numEpochs →
      valAccOf ops dl ds
          ((train_model ops dl ds w0 s0 numEpochs).2.valSnaps.getD e w0) ≤
        valAccOf ops dl ds (train_model ops dl ds w0 s0 numEpochs).1 := by
  intro e he
  have hg := goodState_runEpochs ops dl ds w0 numEpochs (initState w0 s0)
    (goodState_init ops dl ds w0 s0)
  have h1 : (train_model ops dl ds w0 s0 numEpochs).1 =
      (runEpochs ops dl ds numEpochs (initState w0 s0)).bestWts := rfl
  have h2 : (train_model ops dl ds w0 s0 numEpochs).2 =
      runEpochs ops dl ds numEpochs (initState w0 s0) := rfl
  rw [h1, h2]
  obtain ⟨hlen, _, hidx, hdisj⟩ := hg
  have hlenAcc :
      (runEpochs ops dl ds numEpochs (initState w0 s0)).valAccs.length =
        numEpochs := by
    have := (runEpochs_lengths ops dl ds numEpochs (initState w0 s0)).2.2.1
    simpa [initState] using this
  have he2 : e <
      (runEpochs ops dl ds numEpochs (initState w0 s0)).valAccs.length := by
    omega
  obtain ⟨p1, p2, p3⟩ := hidx e he2
  rcases hdisj with ⟨hb0, hbw⟩ | ⟨_, i, hi, hacc, _, hsnap⟩
  · rw [hbw, p3]
    have hz : (runEpochs ops dl ds numEpochs
        (initState w0 s0)).valAccs.getD e 0 = 0 :=
      le_antisymm (hb0 ▸ p2) p1
    rw [hz]
    exact valAccOf_nonneg ops dl ds w0
  · obtain ⟨_, _, q3⟩ := hidx i hi
    rw [p3]
    have hb : valAccOf ops dl ds
        (runEpochs ops dl ds numEpochs (initState w0 s0)).bestWts =
        (runEpochs ops dl ds numEpochs (initState w0 s0)).bestAcc := by
      rw [← hsnap, q3, hacc]
    rw [hb]
    exact p2

/-- Witness for C1 at a concrete one-epoch run. -/
theorem c1_witness :
    1 ≤ 1 ∧ ∀ e, e < 1 →
      valAccOf opsAllRight dlOne dsOne
          ((train_model opsAllRight dlOne dsOne 0 0 1).2.valSnaps.getD e 0) ≤
        valAccOf opsAllRight dlOne dsOne
          (train_model opsAllRight dlOne dsOne 0 0 1).1 :=
  ⟨by decide, c1_best_model_dominates opsAllRight dlOne dsOne 0 0 1
    (by decide)⟩

/-- C2 counterexample: after a one-epoch run in which training moves
the weights (entry snapshot 0, epoch-0 snapshot 1) and the epoch's
validation accuracy is 0, the best snapshot is the entry snapshot, not
the snapshot of the epoch attaining the maximum observed validation
accuracy — so the claimed invariant fails as stated. -/
theorem c2_counterexample :
    ¬ bestIsFirstArgmax 0 (train_model opsAllWrong dlOne dsOne 0 0 1).2 := by
  intro hcl
  obtain ⟨i, hi, _, _, hbw⟩ := hcl
  obtain ⟨hva, hvs, hbw0⟩ := tmAllWrong_final
  rw [hva] at hi
  have hi0 : i = 0 := by simp at hi; omega
  subst hi0
  rw [hbw0, hvs] at hbw
  simp at hbw

/-- C2 (amended): after each epoch's VAL phase the best snapshot is
replaced with the current live parameters if and only if the epoch's
validation accuracy strictly exceeds the best accuracy so far
(initialized to 0.0); hence, whenever the best accuracy observed so far
is strictly positive, the best snapshot corresponds to the epoch with
the maximum validation accuracy observed so far, ties favoring the
earlier epoch.  (When every observed validation accuracy is 0 the best
snapshot is the entry-time snapshot instead, which need not be any
epoch's snapshot.) -/
theorem c2_amended_best_snapshot (ops : Ops W S I)
    (dl : Phase → List (Batch I)) (ds : Phase → Nat) (w0 : W) (s0 : S)
    (numEpochs : Nat) :
    (∀ st : TrainState W S,
      (runPhaseStep ops dl ds st Phase.val).bestWts =
          (if st.bestAcc < valAccOf ops dl ds st.weights then st.weights
            else st.bestWts) ∧
        (runPhaseStep ops dl ds st Phase.val).bestAcc =
          (if st.bestAcc < valAccOf ops dl ds st.weights then
            valAccOf ops dl ds st.weights
          else st.bestAcc)) ∧
    (0 < (train_model ops dl ds w0 s0 numEpochs).2.bestAcc →
      bestIsFirstArgmax w0 (train_model ops dl ds w0 s0 numEpochs).2) := by
  constructor
  · intro st
    exact ⟨runPhaseStep_val_bestWts ops dl ds st,
      runPhaseStep_val_bestAcc ops dl ds st⟩
  · intro hpos
    have hg := goodState_runEpochs ops dl ds w0 numEpochs (initState w0 s0)
      (goodState_init ops dl ds w0 s0)
    have h2 : (train_model ops dl ds w0 s0 numEpochs).2 =
        runEpochs ops dl ds numEpochs (initState w0 s0) := rfl
    rw [h2] at hpos ⊢
    obtain ⟨hlen, _, hidx, hdisj⟩ := hg
    rcases hdisj with ⟨hb0, _⟩ | ⟨_, i, hi, hacc, hfirst, hsnap⟩
    · rw [hb0] at hpos
      exact absurd hpos (lt_irrefl 0)
    · refine ⟨i, hi, ?_, ?_, hsnap.symm⟩
      · intro j hj
        obtain ⟨_, q2, _⟩ := hidx j hj
        rw [hacc]
        exact q2
      · intro j hj
        rw [hacc]
        exact hfirst j hj

/-- Witness for the amended C2 at a concrete one-epoch run with
positive validation accuracy. -/
theorem c2_amended_witness :
    0 < (train_model opsAllRight dlOne dsOne 0 0 1).2.bestAcc ∧
      bestIsFirstArgmax 0 (train_model opsAllRight dlOne dsOne 0 0 1).2 := by
  have hpos : 0 < (train_model opsAllRight dlOne dsOne 0 0 1).2.bestAcc := by
    rw [tmAllRight_bestAcc]
    exact zero_lt_one
  exact ⟨hpos,
    (c2_amended_best_snapshot opsAllRight dlOne dsOne 0 0 1).2 hpos⟩

/-- C10: if no epoch's validation accuracy strictly exceeds 0.0,
`train_model` returns the model loaded with the parameter snapshot
taken at entry. -/
theorem c10_returns_entry_snapshot (ops : Ops W S I)
    (dl : Phase → List (Batch I)) (ds : Phase → Nat) (w0 : W) (s0 : S)
    (numEpochs : Nat)
    (h : ∀ a ∈ (train_model ops dl ds w0 s0 numEpochs).2.valAccs,
      ¬ 0 < a) :
    (train_model ops dl ds w0 s0 numEpochs).1 = w0 := by
  have hg := goodState_runEpochs ops dl ds w0 numEpochs (initState w0 s0)
    (goodState_init ops dl ds w0 s0)
  have h1 : (train_model ops dl ds w0 s0 numEpochs).1 =
      (runEpochs ops dl ds numEpochs (initState w0 s0)).bestWts := rfl
  have h2 : (train_model ops dl ds w0 s0 numEpochs).2 =
      runEpochs ops dl ds numEpochs (initState w0 s0) := rfl
  rw [h2] at h
  rw [h1]
  obtain ⟨_, _, _, hdisj⟩ := hg
  rcases hdisj with ⟨_, hbw⟩ | ⟨hbpos, i, hi, hacc, _, _⟩
  · exact hbw
  · exfalso
    have hmem : (runEpochs ops dl ds numEpochs
        (initState w0 s0)).valAccs.getD i 0 ∈
        (runEpochs ops dl ds numEpochs (initState w0 s0)).valAccs := by
      rw [List.getD_eq_getElem _ _ hi]
      exact List.getElem_mem hi
    exact h _ hmem (hacc ▸ hbpos)

/-- Witness for C10 at a concrete one-epoch run with validation
accuracy 0. -/
theorem c10_witness :
    (∀ a ∈ (train_model opsAllWrong dlOne dsOne 0 0 1).2.valAccs,
        ¬ 0 < a) ∧
      (train_model opsAllWrong dlOne dsOne 0 0 1).1 = 0 := by
  have hv : ∀ a ∈ (train_model opsAllWrong dlOne dsOne 0 0 1).2.valAccs,
      ¬ 0 < a := by
    rw [tmAllWrong_final.1]
    intro a ha
    rw [List.mem_singleton] at ha
    subst ha
    exact lt_irrefl 0
  exact ⟨hv, c10_returns_entry_snapshot opsAllWrong dlOne dsOne 0 0 1 hv⟩

/-! ### Visualization-loop lemmas -/

theorem vizInner_spec (numImages : Nat) (preds labels : List Nat)
    (bs bc : Nat) :
    ∀ (rem j : Nat) (st : VizState), st.imagesSoFar < numImages →
      (vizInner numImages preds labels bs bc rem j st).1.imagesSoFar =
          st.imagesSoFar + min rem (numImages - st.imagesSoFar) ∧
      (vizInner numImages preds labels bs bc rem j st).1.rendered =
          st.rendered + min rem (numImages - st.imagesSoFar) ∧
      (vizInner numImages preds labels bs bc rem j st).1.correct =
          st.correct + min rem (numImages - st.imagesSoFar) * bc ∧
      (vizInner numImages preds labels bs bc rem j st).1.total =
          st.total + min rem (numImages - st.imagesSoFar) * bs ∧
      (vizInner numImages preds labels bs bc rem j st).1.probEstimates =
          st.probEstimates ++ runningScores st.correct st.total
            (List.replicate (min rem (numImages - st.imagesSoFar))
              (bc, bs)) ∧
      (vizInner numImages preds labels bs bc rem j st).1.wasTraining =
          st.wasTraining ∧
      ((vizInner numImages preds labels bs bc rem j st).2 = true ↔
          numImages - st.imagesSoFar ≤ rem) ∧
      (vizInner numImages preds labels bs bc rem j st).1.rocCalls =
          st.rocCalls ++
            (if (vizInner numImages preds labels bs bc rem j st).2 then
              [((vizInner numImages preds labels bs bc rem j st).1.predGroundtruth,
                (vizInner numImages preds labels bs bc rem j st).1.probEstimates)]
            else []) ∧
      ((vizInner numImages preds labels bs bc rem j st).2 = false →
        (vizInner numImages preds labels bs bc rem j st).1.arraysPrinted =
            st.arraysPrinted ∧
          (vizInner numImages preds labels bs bc rem j st).1.modelTraining =
            st.modelTraining) ∧
      ((vizInner numImages preds labels bs bc rem j st).2 = true →
        (vizInner numImages preds labels bs bc rem j st).1.arraysPrinted =
            true ∧
          (vizInner numImages preds labels bs bc rem j st).1.modelTraining =
            st.wasTraining) := by
  intro rem
  induction rem with
  | zero =>
    intro j st hlt
    have hm : min 0 (numImages - st.imagesSoFar) = 0 := by omega
    refine ⟨?_, ?_, ?_, ?_, ?_, rfl, ?_, ?_, ?_, ?_⟩
    · simp [vizInner, hm]
    · simp [vizInner, hm]
    · simp [vizInner, hm]
    · simp [vizInner, hm]
    · simp [vizInner, hm, runningScores]
    · simp [vizInner]
      omega
    · simp [vizInner]
    · intro _; exact ⟨rfl, rfl⟩
    · intro hc; exact absurd hc (by simp [vizInner])
  | succ rem ih =>
    intro j st hlt
    by_cases hend : st.imagesSoFar + 1 = numImages
    · have hm : min (rem + 1) (numImages - st.imagesSoFar) = 1 := by omega
      simp only [vizInner]
      rw [if_pos hend, hm]
      refine ⟨rfl, rfl, by simp, by simp, ?_, rfl, ?_, ?_, ?_, ?_⟩
      · simp [runningScores]
      · simp
        omega
      · simp
      · intro hc; exact absurd hc (by simp)
      · intro _; exact ⟨rfl, rfl⟩
    · have hlt2 : st.imagesSoFar + 1 < numImages := by omega
      have hm : min (rem + 1) (numImages - st.imagesSoFar) =
          min rem (numImages - (st.imagesSoFar + 1)) + 1 := by omega
      simp only [vizInner]
      rw [if_neg hend]
      obtain ⟨q1, q2, q3, q4, q5, q6, q7, q8, q9, q10⟩ :=
        ih (j + 1)
          { st with
            imagesSoFar := st.imagesSoFar + 1
            rendered := st.rendered + 1
            total := st.total + bs
            correct := st.correct + bc
            probEstimates := st.probEstimates ++
              [100 * ((st.correct + bc : Nat) : ℚ) /
                ((st.total + bs : Nat) : ℚ)]
            predEstimates := st.predEstimates ++ [preds.getD j 0]
            predGroundtruth := st.predGroundtruth ++ [labels.getD j 0] }
          hlt2
      refine ⟨?_, ?_, ?_, ?_, ?_, q6, ?_, ?_, q9, ?_⟩
      · rw [q1]; simp; omega
      · rw [q2]; simp; omega
      · rw [q3]; simp; rw [hm]; ring
      · rw [q4]; simp; rw [hm]; ring
      · rw [q5]; simp; rw [hm, List.replicate_succ]
        simp [runningScores]
      · rw [q7]; dsimp only; omega
      · rw [q8]
      · intro hc
        obtain ⟨r1, r2⟩ := q10 hc
        exact ⟨r1, r2⟩

theorem sum_replicate_nat (k x : Nat) : (List.replicate k x).sum = k * x := by
  induction k with
  | zero => simp
  | succ n ih => simp [List.replicate_succ, ih, Nat.succ_mul]; omega

theorem runningScores_append (l1 l2 : List (Nat × Nat)) :
    ∀ c t, runningScores c t (l1 ++ l2) =
      runningScores c t l1 ++
        runningScores (c + (l1.map Prod.fst).sum)
          (t + (l1.map Prod.snd).sum) l2 := by
  induction l1 with
  | nil => intro c t; simp [runningScores]
  | cons p l1 ih =>
    intro c t
    simp only [List.cons_append, runningScores, List.map_cons,
      List.sum_cons, List.append_eq]
    rw [ih]
    simp [Nat.add_assoc]

theorem vizOuter_probs (ops : Ops W S I) (w : W) (numImages : Nat) :
    ∀ (batches : List (Batch I)) (st : VizState),
      st.imagesSoFar < numImages →
      (vizOuter ops w numImages batches st).probEstimates =
        st.probEstimates ++ runningScores st.correct st.total
          ((batchPairSeq ops w batches).take
            (numImages - st.imagesSoFar)) := by
  intro batches
  induction batches with
  | nil => intro st hlt; simp [vizOuter, batchPairSeq, runningScores]
  | cons b bs ih =>
    intro st hlt
    obtain ⟨q1, _, q3, q4, q5, _, q7, _, _, _⟩ :=
      vizInner_spec numImages (ops.predsOn w b) b.labels b.size
        (countCorrect (ops.predsOn w b) b.labels) b.size 0 st hlt
    simp only [vizOuter]
    by_cases hearly : numImages - st.imagesSoFar ≤ b.size
    · rw [if_pos (q7.2 hearly), q5]
      have e1 : (batchPairSeq ops w (b :: bs)).take
          (numImages - st.imagesSoFar) =
          List.replicate (numImages - st.imagesSoFar)
            (countCorrect (ops.predsOn w b) b.labels, b.size) := by
        show (List.replicate b.size
            (countCorrect (ops.predsOn w b) b.labels, b.size) ++
          batchPairSeq ops w bs).take (numImages - st.imagesSoFar) = _
        rw [List.take_append_eq_append_take, List.length_replicate,
          List.take_replicate]
        have h1 : min (numImages - st.imagesSoFar) b.size =
            numImages - st.imagesSoFar := by omega
        have h2 : numImages - st.imagesSoFar - b.size = 0 := by omega
        rw [h1, h2]
        simp
      rw [e1]
      have h3 : min b.size (numImages - st.imagesSoFar) =
          numImages - st.imagesSoFar := by omega
      rw [h3]
    · have h2 : ¬ ((vizInner numImages (ops.predsOn w b) b.labels b.size
          (countCorrect (ops.predsOn w b) b.labels) b.size 0 st).2 =
          true) := fun hc => hearly (q7.1 hc)
      rw [if_neg h2]
      have hlt2 : (vizInner numImages (ops.predsOn w b) b.labels b.size
          (countCorrect (ops.predsOn w b) b.labels) b.size 0
          st).1.imagesSoFar < numImages := by
        rw [q1]; omega
      rw [ih _ hlt2, q5, q3, q4, q1]
      have hk : min b.size (numImages - st.imagesSoFar) = b.size := by
        omega
      rw [hk]
      have e1 : (batchPairSeq ops w (b :: bs)).take
          (numImages - st.imagesSoFar) =
          List.replicate b.size
              (countCorrect (ops.predsOn w b) b.labels, b.size) ++
            (batchPairSeq ops w bs).take
              (numImages - st.imagesSoFar - b.size) := by
        show (List.replicate b.size
            (countCorrect (ops.predsOn w b) b.labels, b.size) ++
          batchPairSeq ops w bs).take (numImages - st.imagesSoFar) = _
        rw [List.take_append_eq_append_take, List.length_replicate,
          List.take_replicate]
        have h1 : min (numImages - st.imagesSoFar) b.size = b.size := by
          omega
        rw [h1]
      rw [e1, runningScores_append]
      have e2 : numImages - (st.imagesSoFar + b.size) =
          numImages - st.imagesSoFar - b.size := by omega
      rw [e2]
      simp [List.map_replicate, sum_replicate_nat, List.append_assoc]

theorem vizOuter_early (ops : Ops W S I) (w : W) (numImages : Nat) :
    ∀ (batches : List (Batch I)) (st : VizState),
      st.imagesSoFar < numImages →
      st.rendered = st.imagesSoFar →
      st.rocCalls = [] →
      numImages - st.imagesSoFar ≤ totalSamples batches →
      (vizOuter ops w numImages batches st).rendered = numImages ∧
      (vizOuter ops w numImages batches st).rocCalls =
        [((vizOuter ops w numImages batches st).predGroundtruth,
          (vizOuter ops w numImages batches st).probEstimates)] := by
  intro batches
  induction batches with
  | nil =>
    intro st h1 _ _ h4
    simp [totalSamples] at h4
    omega
  | cons b bs ih =>
    intro st hlt hrend hroc hrem
    obtain ⟨q1, q2, _, _, _, _, q7, q8, q9, _⟩ :=
      vizInner_spec numImages (ops.predsOn w b) b.labels b.size
        (countCorrect (ops.predsOn w b) b.labels) b.size 0 st hlt
    simp only [vizOuter]
    by_cases hearly : numImages - st.imagesSoFar ≤ b.size
    · have h2 := q7.2 hearly
      rw [if_pos h2]
      refine ⟨?_, ?_⟩
      · rw [q2, hrend]; omega
      · rw [q8, h2, hroc]; simp
    · have h2 : ¬ ((vizInner numImages (ops.predsOn w b) b.labels b.size
          (countCorrect (ops.predsOn w b) b.labels) b.size 0 st).2 =
          true) := fun hc => hearly (q7.1 hc)
      have h2f : (vizInner numImages (ops.predsOn w b) b.labels b.size
          (countCorrect (ops.predsOn w b) b.labels) b.size 0 st).2 =
          false := by
        cases hX : (vizInner numImages (ops.predsOn w b) b.labels b.size
            (countCorrect (ops.predsOn w b) b.labels) b.size 0 st).2
        · rfl
        · exact absurd hX h2
      rw [if_neg h2]
      apply ih
      · rw [q1]; omega
      · rw [q2, q1, hrend]
      · rw [q8, h2f, hroc]; simp
      · rw [q1]
        simp only [totalSamples, List.map_cons, List.sum_cons]
          at hrem ⊢
        omega

theorem vizOuter_exhaust (ops : Ops W S I) (w : W) (numImages : Nat) :
    ∀ (batches : List (Batch I)) (st : VizState),
      st.imagesSoFar + totalSamples batches < numImages →
      (vizOuter ops w numImages batches st).rendered =
          st.rendered + totalSamples batches ∧
      (vizOuter ops w numImages batches st).rocCalls = st.rocCalls ∧
      (vizOuter ops w numImages batches st).arraysPrinted =
          st.arraysPrinted ∧
      (vizOuter ops w numImages batches st).modelTraining =
          st.wasTraining := by
  intro batches
  induction batches with
  | nil => intro st _; simp [vizOuter, totalSamples]
  | cons b bs ih =>
    intro st hlt
    have htot : totalSamples (b :: bs) =
        b.size + totalSamples bs := by
      simp [totalSamples]
    have hst : st.imagesSoFar < numImages := by omega
    obtain ⟨q1, q2, _, _, _, q6, q7, q8, q9, _⟩ :=
      vizInner_spec numImages (ops.predsOn w b) b.labels b.size
        (countCorrect (ops.predsOn w b) b.labels) b.size 0 st hst
    have hnot : ¬ (numImages - st.imagesSoFar ≤ b.size) := by
      rw [htot] at hlt
      omega
    have h2f : (vizInner numImages (ops.predsOn w b) b.labels b.size
        (countCorrect (ops.predsOn w b) b.labels) b.size 0 st).2 =
        false := by
      cases hX : (vizInner numImages (ops.predsOn w b) b.labels b.size
          (countCorrect (ops.predsOn w b) b.labels) b.size 0 st).2
      · rfl
      · exact absurd (q7.1 hX) hnot
    have h2 : ¬ ((vizInner numImages (ops.predsOn w b) b.labels b.size
        (countCorrect (ops.predsOn w b) b.labels) b.size 0 st).2 =
        true) := by
      rw [h2f]; simp
    simp only [vizOuter]
    rw [if_neg h2]
    have hk : min b.size (numImages - st.imagesSoFar) = b.size := by
      omega
    obtain ⟨r1, r2, r3, r4⟩ := ih
      (vizInner numImages (ops.predsOn w b) b.labels b.size
        (countCorrect (ops.predsOn w b) b.labels) b.size 0 st).1
      (by rw [q1, hk]; rw [htot] at hlt; omega)
    refine ⟨?_, ?_, ?_, ?_⟩
    · rw [r1, q2, hk, htot]; omega
    · rw [r2, q8, h2f]; simp
    · rw [r3]; exact (q9 h2f).1
    · rw [r4, q6]

/-! ### Claims C3, C4, C9 -/

/-- C3 counterexample: on a single validation batch of two samples with
labels 0 and 1 and predictions 0 and 0, the first appended score is 50
(the whole batch's correct count over the whole batch's size), while
the cumulative running accuracy over the samples visualized so far
would be 100 after the first (correct) sample — so the claim fails as
stated. -/
theorem c3_counterexample :
    (visualize_model opsViz [vizBatch] 0 true 24).probEstimates ≠
      cumulativeAccuracies 0 0 (visitedCorrectness opsViz 0 [vizBatch]) := by
  intro h
  have hl : (visualize_model opsViz [vizBatch] 0 true 24).probEstimates =
      [50, 50] := by
    have h0 : (visualize_model opsViz [vizBatch] 0 true 24).probEstimates =
        [100 * ((1 : Nat) : ℚ) / ((2 : Nat) : ℚ),
          100 * ((2 : Nat) : ℚ) / ((4 : Nat) : ℚ)] := rfl
    rw [h0]
    norm_num
  have hr : cumulativeAccuracies 0 0
      (visitedCorrectness opsViz 0 [vizBatch]) = [100, 50] := by
    have h0 : cumulativeAccuracies 0 0
        (visitedCorrectness opsViz 0 [vizBatch]) =
        [100 * ((1 : Nat) : ℚ) / ((1 : Nat) : ℚ),
          100 * ((1 : Nat) : ℚ) / ((2 : Nat) : ℚ)] := rfl
    rw [h0]
    norm_num
  rw [hl, hr] at h
  simp only [List.cons.injEq] at h
  exact absurd h.1 (by norm_num)

/-- C3 (amended): for every sample visualized by `visualize_model`, the
appended score is 100 times correct over total where, for each
visualized sample, the number of correct predictions in the sample's
WHOLE batch is added to correct and the whole batch's size is added to
total (so it equals the cumulative running accuracy over visualized
samples only when every batch has size one), not a per-sample
confidence score. -/
theorem c3_amended_scores (ops : Ops W S I) (valBatches : List (Batch I))
    (w : W) (wt : Bool) (numImages : Nat) (h : 1 ≤ numImages) :
    (visualize_model ops valBatches w wt numImages).probEstimates =
      runningScores 0 0 ((batchPairSeq ops w valBatches).take numImages) := by
  unfold visualize_model
  rw [vizOuter_probs ops w numImages valBatches _ (by omega : (0 : Nat) < numImages)]
  simp

/-- Witness for the amended C3 at the concrete two-sample batch. -/
theorem c3_amended_witness :
    1 ≤ 24 ∧
      (visualize_model opsViz [vizBatch] 0 true 24).probEstimates =
        runningScores 0 0 ((batchPairSeq opsViz 0 [vizBatch]).take 24) :=
  ⟨by decide, c3_amended_scores opsViz [vizBatch] 0 true 24 (by decide)⟩

/-- C4: on a validation set with at least 24 samples and requested
sample count 24, `visualize_model` renders exactly 24 samples, then
invokes `compute_roc_metrics` exactly once, with the accumulated
ground-truth and score sequences, and then returns. -/
theorem c4_renders_24_then_roc (ops : Ops W S I)
    (valBatches : List (Batch I)) (w : W) (wt : Bool)
    (h : 24 ≤ totalSamples valBatches) :
    (visualize_model ops valBatches w wt 24).rendered = 24 ∧
      (visualize_model ops valBatches w wt 24).rocCalls =
        [((visualize_model ops valBatches w wt 24).predGroundtruth,
          (visualize_model ops valBatches w wt 24).probEstimates)] := by
  unfold visualize_model
  exact vizOuter_early ops w 24 valBatches _
    (by show (0 : Nat) < 24; omega) rfl rfl (by simpa using h)

/-- Witness for C4 on 24 one-sample validation batches. -/
theorem c4_witness :
    24 ≤ totalSamples vizBatches24 ∧
      ((visualize_model opsViz vizBatches24 0 true 24).rendered = 24 ∧
        (visualize_model opsViz vizBatches24 0 true 24).rocCalls =
          [((visualize_model opsViz vizBatches24 0 true
              24).predGroundtruth,
            (visualize_model opsViz vizBatches24 0 true
              24).probEstimates)]) :=
  ⟨by decide, c4_renders_24_then_roc opsViz vizBatches24 0 true
    (by decide)⟩

/-- C9: when the validation set has fewer samples than the requested
count, `visualize_model` visits every sample, restores the model's
previous training/eval mode, and returns without ever calling
`compute_roc_metrics` and without printing the accumulated arrays. -/
theorem c9_exhausts_without_roc (ops : Ops W S I)
    (valBatches : List (Batch I)) (w : W) (wt : Bool) (numImages : Nat)
    (h : totalSamples valBatches < numImages) :
    (visualize_model ops valBatches w wt numImages).rendered =
        totalSamples valBatches ∧
      (visualize_model ops valBatches w wt numImages).rocCalls = [] ∧
      (visualize_model ops valBatches w wt numImages).arraysPrinted =
        false ∧
      (visualize_model ops valBatches w wt numImages).modelTraining =
        wt := by
  unfold visualize_model
  have := vizOuter_exhaust ops w numImages valBatches
    { wasTraining := wt
      modelTraining := false
      imagesSoFar := 0
      total := 0
      correct := 0
      probEstimates := []
      predEstimates := []
      predGroundtruth := []
      rendered := 0
      rocCalls := []
      arraysPrinted := false } (by simpa using h)
  simpa using this

/-- Witness for C9 on a two-sample validation set with requested count
24. -/
theorem c9_witness :
    totalSamples [vizBatch] < 24 ∧
      ((visualize_model opsViz [vizBatch] 0 true 24).rendered =
          totalSamples [vizBatch] ∧
        (visualize_model opsViz [vizBatch] 0 true 24).rocCalls = [] ∧
        (visualize_model opsViz [vizBatch] 0 true 24).arraysPrinted =
          false ∧
        (visualize_model opsViz [vizBatch] 0 true 24).modelTraining =
          true) :=
  ⟨by decide, c9_exhausts_without_roc opsViz [vizBatch] 0 true 24
    (by decide)⟩

/-! ### Claim C8 -/

/-- C8: if the dataset root has a missing or empty train/val class
subfolder, or the class directory structure is inconsistent between
train and val, the run fails with the data-load error — fatally, before
`train_model` is ever invoked (the error result carries no trained
model). -/
theorem c8_data_load_error (ops : Ops W S I)
    (dl : Phase → List (Batch I)) (dsSize : Phase → Nat)
    (d : DataDirLayout) (wFt wConv : W) (s0 : S) (numEpochs : Nat)
    (h : missingOrEmptyClassDir d ∨ inconsistentClassDirs d) :
    runScript ops dl dsSize d wFt wConv s0 numEpochs =
      Except.error ScriptError.dataLoadError := by
  have hok : ¬ (dataLoadOk d = true) := by
    intro htrue
    unfold dataLoadOk at htrue
    simp only [Bool.and_eq_true, Bool.not_eq_true', List.all_eq_true,
      beq_iff_eq, decide_eq_true_eq] at htrue
    obtain ⟨⟨⟨⟨ht, hv⟩, hall1⟩, hall2⟩, hcons⟩ := htrue
    rcases h with hm | hi
    · rcases hm with h1 | h1 | ⟨c, hc, h0⟩ | ⟨c, hc, h0⟩
      · rw [h1] at ht; simp at ht
      · rw [h1] at hv; simp at hv
      · have := hall1 c hc; omega
      · have := hall2 c hc; omega
    · exact hi hcons
  unfold runScript
  rw [if_neg hok]

/-- Witness for C8 at a layout whose only train class directory is
empty. -/
theorem c8_witness :
    (missingOrEmptyClassDir layoutBad ∨
        inconsistentClassDirs layoutBad) ∧
      runScript opsAllWrong dlOne dsOne layoutBad 0 0 0 1 =
        Except.error ScriptError.dataLoadError := by
  have hbad : missingOrEmptyClassDir layoutBad ∨
      inconsistentClassDirs layoutBad := by
    left
    right; right; left
    exact ⟨("a", 0), by simp [layoutBad], rfl⟩
  exact ⟨hbad,
    c8_data_load_error opsAllWrong dlOne dsOne layoutBad 0 0 0 1 hbad⟩

end PitML
